import Mathlib

/-!
Shallow embedding of the NANDA infrastructure core:
the capability-certifier job runner (`langchain_capability_certifier.py`)
and the observer/evaluator (`langchain_observer_evaluator.py`).

Python floats are idealised as exact rationals (`ℚ`) wherever the source
only performs field operations, and as reals (`ℝ`) where a square root is
taken (the Wilson interval).  Python's `round(x, 4)` is modelled as
round-half-to-even at 4 decimal digits (`round4`).  I/O (log files, HTTP,
timestamps, uuids, HMAC signing) is outside the model: invocation of the
target agent is an oracle parameter, log contents are explicit lists, and
fresh identifiers are passed in as arguments.
-/

namespace NandaInfra

/-- Round-half-to-even to the nearest integer, the rounding used by Python's
builtin `round`: values with fractional part below 1/2 round down, above 1/2
round up, and exact halves round to the even neighbour. -/
def rhe {α : Type} [LinearOrderedField α] [FloorRing α] (x : α) : ℤ :=
  if Int.fract x < 1/2 then ⌊x⌋
  else if 1/2 < Int.fract x then ⌊x⌋ + 1
  else if ⌊x⌋ % 2 = 0 then ⌊x⌋ else ⌊x⌋ + 1

/-- Python's `round(x, 4)`: round-half-to-even at 4 decimal digits. -/
def round4 {α : Type} [LinearOrderedField α] [FloorRing α] (x : α) : α :=
  ((rhe (x * 10000) : ℤ) : α) / 10000

/-!
Text normalisation and grading.  The certifier defines `normalize`,
`grade_math_exact`, `f1_score` and `grade_item`; the observer's probe runner
defines an identical `norm` inside `match_success`.  Strings are processed as
lists of characters; `words` mirrors Python's `str.split()` with no argument
(split on runs of whitespace, dropping empty pieces, so a leading `strip` is
redundant).
-/

/-- Accumulator for `words`: `cur` holds the current in-progress word in
reverse order. -/
def wordsAux : List Char → List Char → List (List Char)
  | [], cur => if cur.isEmpty then [] else [cur.reverse]
  | c :: cs, cur =>
    if c.isWhitespace then
      if cur.isEmpty then wordsAux cs [] else cur.reverse :: wordsAux cs []
    else wordsAux cs (c :: cur)

/-- Whitespace-separated words of a character list (Python `str.split()`). -/
def words (l : List Char) : List (List Char) := wordsAux l []

/-- Token list of `txt.strip().lower().split()`. -/
def normTokens (s : String) : List (List Char) :=
  words (s.toList.map Char.toLower)

/-- The source's `normalize`: `" ".join(txt.strip().lower().split())`, i.e.
trim, lower-case and collapse whitespace runs to single spaces.  The result is
kept as a character list. -/
def normalize (s : String) : List Char :=
  List.intercalate [' '] (normTokens s)

/-- `grade_math_exact`: 1.0 iff the normalised strings are equal. -/
def grade_math_exact (pred gold : String) : ℚ :=
  if normalize pred = normalize gold then 1 else 0

/-- `f1_score`: whitespace-token-set F1 between the normalised strings. -/
def f1_score (pred gold : String) : ℚ :=
  let ps := (normTokens pred).dedup
  let gs := (normTokens gold).dedup
  if ps.isEmpty ∨ gs.isEmpty then 0
  else
    let tp := (ps.filter (fun t => t ∈ gs)).length
    if tp = 0 then 0
    else
      let precisionV : ℚ := tp / ps.length
      let recallV : ℚ := tp / gs.length
      2 * precisionV * recallV / (precisionV + recallV)

/-- `grade_item`: exact match for capability `math.g1_g12`, otherwise the
open-QA rule `1.0 if f1_score >= 0.6 else 0.0`. -/
def grade_item (capability : String) (pred gold : String) : ℚ :=
  if capability = "math.g1_g12" then grade_math_exact pred gold
  else if 3/5 ≤ f1_score pred gold then 1 else 0

/-- Boolean test that `pre` is an initial segment of the second list. -/
def listStartsWith : List Char → List Char → Bool
  | [], _ => true
  | _ :: _, [] => false
  | a :: as, b :: bs => a == b && listStartsWith as bs

/-- Python's substring test `needle in hay` on character lists. -/
def occursIn (needle : List Char) : List Char → Bool
  | [] => needle.isEmpty
  | c :: hs => listStartsWith needle (c :: hs) || occursIn needle hs

/-- The observer probe runner's `match_success`: 1 iff the normalised
prediction equals the normalised gold or contains it as a substring. -/
def match_success (pred gold : String) : ℕ :=
  if normalize pred = normalize gold ∨
      occursIn (normalize gold) (normalize pred) = true then 1 else 0

/-!
The Wilson 95% score interval (`wilson_ci` in the certifier, z = 1.96).
-/

/-- The fixed normal quantile `z = 1.96` of `wilson_ci`. -/
noncomputable def zVal : ℝ := 49/25

/-- Center `(p + z²/2n)/(1 + z²/n)` of the Wilson interval. -/
noncomputable def wCenter (p : ℝ) (n : ℕ) : ℝ :=
  (p + zVal^2/(2*n)) / (1 + zVal^2/n)

/-- Margin `z·sqrt(p(1-p)/n + z²/4n²)/(1 + z²/n)` of the Wilson interval. -/
noncomputable def wMargin (p : ℝ) (n : ℕ) : ℝ :=
  zVal * Real.sqrt (p*(1-p)/n + zVal^2/(4*n^2)) / (1 + zVal^2/n)

/-- `wilson_ci(successes, n)`: `(0,0)` for `n = 0`, otherwise
`(max 0 (center - margin), min 1 (center + margin))` at `p = successes/n`. -/
noncomputable def wilson_ci (successes n : ℕ) : ℝ × ℝ :=
  if n = 0 then (0, 0)
  else
    (max 0 (wCenter ((successes : ℝ)/n) n - wMargin ((successes : ℝ)/n) n),
     min 1 (wCenter ((successes : ℝ)/n) n + wMargin ((successes : ℝ)/n) n))

/-!
Test bank and job runner (certifier).
-/

structure TestItem where
  capability : String
  topic : String
  question : String
  answer : String
deriving DecidableEq

/-- `SAMPLE_TESTS` from the certifier. -/
def SAMPLE_TESTS : List TestItem := [
  { capability := "math.g1_g12", topic := "algebra",
    question := "Solve for x: 2x + 3 = 9", answer := "3" },
  { capability := "math.g1_g12", topic := "geometry",
    question := "What is the sum of interior angles of a triangle?", answer := "180" },
  { capability := "math.g1_g12", topic := "calc",
    question := "Derivative of x^2?", answer := "2x" },
  { capability := "qa.general", topic := "science",
    question := "What gas do plants primarily absorb during photosynthesis?",
    answer := "carbon dioxide" }]

/-- `load_tests_for`: filter the sample bank by requested capabilities. -/
def load_tests_for (capabilities : List String) : List TestItem :=
  SAMPLE_TESTS.filter (fun t => t.capability ∈ capabilities)

/-- One certification job (the dict appended to the jobs log).  `n` is an
integer because the start handler applies `int(...)` with no validation. -/
structure Job where
  cert_job_id : String
  agent_id : String
  endpoint : String
  capabilities : List String
  n : ℤ
  rps : ℚ
  pass_threshold : ℚ
deriving DecidableEq

/-- One graded trial (the record appended to the evidence and results logs;
the timestamp is outside the model). -/
structure TrialResult where
  job_id : String
  agent_id : String
  capability : String
  topic : String
  question : String
  gold : String
  prediction : String
  ok : ℕ
deriving DecidableEq

/-- The issued certificate (the data-carrying fields; timestamps, the expiry
string and the HMAC signature are outside the model). -/
structure Certificate where
  agent_id : String
  capability : String
  score : ℚ
  by_topic : List (String × ℚ)
  n : ℤ
  passed : Bool
  ciLo : ℝ
  ciHi : ℝ

/-- Final state of one job run: terminal status, trial records appended, the
certificate if one was issued, and how many agent invocations happened. -/
structure JobOutcome where
  status : String
  message : Option String
  trials : List TrialResult
  cert : Option Certificate
  invocations : ℕ

/-- `(tests * ((n // len(tests)) + 1))[:n]`: cycle the bank up to length `n`
(Python floor division and slicing; a nonpositive `n` yields `[]`). -/
def sampleFor (tests : List TestItem) (n : ℤ) : List TestItem :=
  (List.replicate ((n.fdiv tests.length + 1).toNat) tests).flatten.take n.toNat

/-- One iteration of the trial loop.  `invocation` is the outcome of
`call_agent_a2a`: `none` models a raised transport error, which the loop
catches and records as outcome 0.  `ok` is `int(score >= 1.0)` (the source
computes the same expression on both sides of its conditional). -/
def runTrial (job_id agent_id : String) (item : TestItem)
    (invocation : Option String) : TrialResult :=
  match invocation with
  | some pred =>
      { job_id := job_id, agent_id := agent_id, capability := item.capability,
        topic := item.topic, question := item.question, gold := item.answer,
        prediction := pred,
        ok := if 1 ≤ grade_item item.capability pred item.answer then 1 else 0 }
  | none =>
      { job_id := job_id, agent_id := agent_id, capability := item.capability,
        topic := item.topic, question := item.question, gold := item.answer,
        prediction := "<error>",
        ok := 0 }

/-- `by_topic_scores.setdefault(topic, []).append(ok)` for one trial
(insertion-ordered association list, like a Python dict). -/
def addTopic : List (String × List ℕ) → String → ℕ → List (String × List ℕ)
  | [], t, k => [(t, [k])]
  | (t', l) :: rest, t, k =>
      if t' = t then (t', l ++ [k]) :: rest else (t', l) :: addTopic rest t k

/-- The accumulated per-topic outcome lists of a trial sequence. -/
def byTopicScores (trials : List TrialResult) : List (String × List ℕ) :=
  trials.foldl (fun acc tr => addTopic acc tr.topic tr.ok) []

/-- `",".join(caps) if len(caps) > 1 else caps[0]` (the empty case is
unreachable from `_run`, where an empty test list aborts first). -/
def joinCaps : List String → String
  | [c] => c
  | cs => String.intercalate "," cs

/-- Sum of the `ok` flags of a trial sequence. -/
def successesOf (trials : List TrialResult) : ℕ :=
  (trials.map TrialResult.ok).sum

/-- The trial records produced by the loop of `JobRunner._run`, with agent
invocations supplied by the oracle `invoke` (indexed by trial number;
`none` is a transport failure caught by the loop). -/
def trialsFor (job : Job) (invoke : ℕ → Option String) : List TrialResult :=
  (sampleFor (load_tests_for job.capabilities) job.n).enum.map
    (fun pr => runTrial job.cert_job_id job.agent_id pr.2 (invoke pr.1))

/-- The aggregation step of `JobRunner._run`: score, per-topic means, pass
verdict and rounded Wilson interval over the finished trial list. -/
noncomputable def certFor (job : Job) (trials : List TrialResult) : Certificate :=
  let successes := successesOf trials
  let nEff : ℤ := max 1 job.n
  let score : ℚ := (successes : ℚ) / (nEff : ℚ)
  let ci := wilson_ci successes nEff.toNat
  { agent_id := job.agent_id,
    capability := joinCaps job.capabilities,
    score := round4 score,
    by_topic := (byTopicScores trials).map
      (fun pr => (pr.1, round4 ((pr.2.sum : ℚ) / (max 1 pr.2.length : ℚ)))),
    n := job.n,
    passed := decide (job.pass_threshold ≤ score),
    ciLo := round4 ci.1,
    ciHi := round4 ci.2 }

/-- `JobRunner._run`: the complete execution of one certification job.  An
empty filtered test bank aborts with status `error` before any trial; any
other job runs all trials and ends `done` with a certificate. -/
noncomputable def runJob (job : Job) (invoke : ℕ → Option String) : JobOutcome :=
  if (load_tests_for job.capabilities).isEmpty then
    { status := "error", message := some "no tests for requested capabilities",
      trials := [], cert := none, invocations := 0 }
  else
    { status := "done", message := none, trials := trialsFor job invoke,
      cert := some (certFor job (trialsFor job invoke)),
      invocations := (sampleFor (load_tests_for job.capabilities) job.n).length }

/-!
The `start` action of `create_capability_certifier`.
-/

/-- A parsed `start` request; `none` models an absent key. -/
structure StartRequest where
  agent_id : Option String
  endpoint : Option String
  capabilities : Option (List String)
  n : Option ℤ
  rps : Option ℚ
  pass_threshold : Option ℚ
deriving DecidableEq

/-- Response of the `start` branch of the request handler. -/
inductive StartResponse
  | queued (job : Job)
  | rejected (error : String)
deriving DecidableEq

/-- Python `x or default` for an optional string (`None` and `""` falsy). -/
def orDefaultStr (v : Option String) (d : String) : String :=
  match v with
  | some s => if s = "" then d else s
  | none => d

/-- Python `x or default` for an optional list (`None` and `[]` falsy). -/
def orDefaultList (v : Option (List String)) (d : List String) : List String :=
  match v with
  | some l => if l.isEmpty then d else l
  | none => d

/-- The `start` action: builds the job dict, appends it to the jobs log and
launches it, answering `queued` with the fresh job id.  `freshJobId` and
`freshAgentId` stand for the generated uuid values. -/
def handle_start (freshJobId freshAgentId : String) (req : StartRequest) :
    StartResponse :=
  StartResponse.queued {
    cert_job_id := freshJobId,
    agent_id := orDefaultStr req.agent_id freshAgentId,
    endpoint := orDefaultStr req.endpoint "http://127.0.0.1:6001/a2a",
    capabilities := orDefaultList req.capabilities ["math.g1_g12"],
    n := req.n.getD 50,
    rps := req.rps.getD 1,
    pass_threshold := req.pass_threshold.getD (4/5) }

/-!
Telemetry and health (observer).
-/

structure TelemetryEvent where
  agent_id : String
  latency_ms : ℚ
  success : ℕ
  status_code : ℤ
  fraud_flag : ℕ
deriving DecidableEq

/-- Health snapshot.  The p95 latency is not needed by any claim and is
omitted; the zero-event branch of the source returns a dict without a
`fraud_rate` key, modelled by `none`. -/
structure Health where
  agent_id : String
  events : ℕ
  availability : ℚ
  error_rate : ℚ
  fraud_rate : Option ℚ
deriving DecidableEq

/-- The up-to-`lookback` most recent events of the agent, oldest first. -/
def matchingRows (log : List TelemetryEvent) (agent_id : String)
    (lookback : ℕ) : List TelemetryEvent :=
  ((log.reverse.filter (fun r => r.agent_id = agent_id)).take lookback).reverse

/-- `health_for_agent` over an explicit telemetry log. -/
def health_for_agent (log : List TelemetryEvent) (agent_id : String)
    (lookback : ℕ) : Health :=
  let rows := matchingRows log agent_id lookback
  if rows.isEmpty then
    { agent_id := agent_id, events := 0, availability := 0, error_rate := 1,
      fraud_rate := none }
  else
    let events := rows.length
    let success_rate : ℚ :=
      ((rows.map TelemetryEvent.success).sum : ℚ) / (max 1 events : ℚ)
    let fraud_rate : ℚ :=
      ((rows.map TelemetryEvent.fraud_flag).sum : ℚ) / (max 1 events : ℚ)
    { agent_id := agent_id, events := events,
      availability := round4 success_rate,
      error_rate := round4 (1 - success_rate),
      fraud_rate := some (round4 fraud_rate) }

/-!
Reputation (observer).
-/

/-- `clamp01`. -/
def clamp01 (x : ℚ) : ℚ := max 0 (min 1 x)

/-- Reputation snapshot (the persisted data-carrying fields). -/
structure RepSnapshot where
  agent_id : String
  rep : ℚ
  last_cert_score : ℚ
  actions : List String
deriving DecidableEq

/-- `decide_actions`.  `transportOk` models whether the fire-and-forget
re-certification POST to the certifier goes through or raises. -/
def decide_actions (rateLimitThresh recertDelta : ℚ) (recertMinN : ℤ)
    (rep : ℚ) (probeN : ℤ) (probeSuccess certScore : ℚ)
    (transportOk : Bool) : List String :=
  let actions := ["monitor"]
  let actions := if rep < rateLimitThresh then actions ++ ["rate_limit"] else actions
  if 0 < certScore ∧ recertMinN ≤ probeN ∧ recertDelta ≤ certScore - probeSuccess then
    actions ++ [if transportOk then "recert_requested" else "recert_failed"]
  else actions

/-- `compute_reputation` with the store reads abstracted into arguments:
`availability` and `fraudRate` from the health snapshot, `probeN` and
`probeSuccess` from the last probe run, `certScore` from the latest
certificate (each 0 when no record exists). -/
def compute_reputation (wAvail wProbe wCert wFlags rateLimitThresh recertDelta : ℚ)
    (recertMinN : ℤ) (agent_id : String)
    (availability fraudRate : ℚ) (probeN : ℤ) (probeSuccess certScore : ℚ)
    (transportOk : Bool) : RepSnapshot :=
  let rep := clamp01 (wAvail * availability + wProbe * probeSuccess
    + wCert * certScore - wFlags * fraudRate)
  { agent_id := agent_id,
    rep := round4 rep,
    last_cert_score := round4 certScore,
    actions := decide_actions rateLimitThresh recertDelta recertMinN rep
      probeN probeSuccess certScore transportOk }

/-!
Concrete inputs used by witnesses and counterexamples.
-/

/-- A job literal with the given capabilities, sample size and threshold. -/
def jobFor (caps : List String) (n : ℤ) (thresh : ℚ) : Job :=
  { cert_job_id := "job_w", agent_id := "agent://target/1",
    endpoint := "http://127.0.0.1:6001/a2a", capabilities := caps, n := n,
    rps := 1, pass_threshold := thresh }

/-- Three telemetry events of one agent, one successful. -/
def telemetryLog3 : List TelemetryEvent :=
  [ { agent_id := "agent://target/1", latency_ms := 5, success := 1,
      status_code := 200, fraud_flag := 0 },
    { agent_id := "agent://target/1", latency_ms := 5, success := 0,
      status_code := 500, fraud_flag := 0 },
    { agent_id := "agent://target/1", latency_ms := 5, success := 0,
      status_code := 500, fraud_flag := 0 } ]

/-- A start request carrying an explicitly empty capability list and `n = 0`. -/
def startReqEmptyCaps : StartRequest :=
  { agent_id := none, endpoint := none, capabilities := some [], n := some 0,
    rps := none, pass_threshold := none }

/-- An invocation oracle answering `"3"` on the first trial and failing on
all others. -/
def oracleOneRight : ℕ → Option String := fun i => if i = 0 then some "3" else none

/-!
Lemmas: rounding, the Wilson interval, the job runner, and the claims about
them.
-/

section RoundingLemmas

variable {α : Type} [LinearOrderedField α] [FloorRing α]

theorem rhe_intCast (k : ℤ) : rhe ((k : α)) = k := by
  simp [rhe, Int.fract_intCast, Int.floor_intCast]

theorem floor_le_rhe (x : α) : ⌊x⌋ ≤ rhe x := by
  unfold rhe
  split
  · exact le_refl _
  · split
    · omega
    · split <;> omega

theorem rhe_le_floor_add_one (x : α) : rhe x ≤ ⌊x⌋ + 1 := by
  unfold rhe
  split
  · omega
  · split
    · omega
    · split <;> omega

theorem rhe_of_fract_lt {x : α} (h : Int.fract x < 1/2) : rhe x = ⌊x⌋ := by
  unfold rhe
  rw [if_pos h]

theorem rhe_of_lt_fract {x : α} (h : 1/2 < Int.fract x) : rhe x = ⌊x⌋ + 1 := by
  unfold rhe
  rw [if_neg (by linarith), if_pos h]

theorem rhe_mono {x y : α} (h : x ≤ y) : rhe x ≤ rhe y := by
  rcases lt_or_eq_of_le (Int.floor_le_floor h) with hf | hf
  · calc rhe x ≤ ⌊x⌋ + 1 := rhe_le_floor_add_one x
    _ ≤ ⌊y⌋ := by omega
    _ ≤ rhe y := floor_le_rhe y
  · -- same floor: compare fractional parts
    have hcast : (⌊x⌋ : α) = (⌊y⌋ : α) := by exact_mod_cast hf
    have hfr : Int.fract x ≤ Int.fract y := by
      have hx := Int.floor_add_fract x
      have hy := Int.floor_add_fract y
      linarith
    by_cases c1 : Int.fract x < 1/2
    · rw [rhe_of_fract_lt c1, hf]
      exact floor_le_rhe y
    · by_cases c2 : 1/2 < Int.fract y
      · rw [rhe_of_lt_fract c2, ← hf]
        exact rhe_le_floor_add_one x
      · -- both fractional parts equal 1/2, hence x = y
        have e1 : Int.fract x = 1/2 := le_antisymm (by linarith [le_of_not_lt c2]) (le_of_not_lt c1)
        have e2 : Int.fract y = 1/2 := le_antisymm (le_of_not_lt c2) (by linarith)
        have hxy : x = y := by
          have hx := Int.floor_add_fract x
          have hy := Int.floor_add_fract y
          rw [e1] at hx
          rw [e2] at hy
          linarith
        rw [hxy]

theorem rhe_nonneg {x : α} (h : 0 ≤ x) : 0 ≤ rhe x := by
  have := rhe_mono (α := α) (x := ((0:ℤ) : α)) (y := x) (by exact_mod_cast h)
  rwa [rhe_intCast] at this

theorem rhe_le_intCast {x : α} {k : ℤ} (h : x ≤ (k : α)) : rhe x ≤ k := by
  have := rhe_mono h
  rwa [rhe_intCast] at this

/-- Reflection identity for round-half-to-even about half of an even integer:
`rhe (k - x) = k - rhe x` whenever `k` is even. -/
theorem rhe_even_sub {k : ℤ} (hk : k % 2 = 0) (x : α) :
    rhe ((k : α) - x) = k - rhe x := by
  have hx := Int.floor_add_fract x
  have hf0 := Int.fract_nonneg x
  have hf1 := Int.fract_lt_one x
  by_cases hz : Int.fract x = 0
  · -- x is an integer
    set m := ⌊x⌋ with hm
    have hxi : x = ((m : ℤ) : α) := by rw [← hx, hz, add_zero]
    rw [hxi, show ((k : α)) - ((m : ℤ) : α) = (((k - m : ℤ)) : α) by push_cast; ring,
      rhe_intCast, rhe_intCast]
  · -- x has a genuine fractional part
    have hz' : 0 < Int.fract x := lt_of_le_of_ne hf0 (Ne.symm hz)
    have hrep : (k : α) - x = (((k - ⌊x⌋ - 1 : ℤ)) : α) + (1 - Int.fract x) := by
      push_cast; linarith
    have hfloor : ⌊(k : α) - x⌋ = k - ⌊x⌋ - 1 := by
      rw [hrep, Int.floor_int_add]
      have : ⌊1 - Int.fract x⌋ = 0 := by
        rw [Int.floor_eq_zero_iff]
        constructor
        · linarith
        · simpa using hz'
      omega
    have hfract : Int.fract ((k : α) - x) = 1 - Int.fract x := by
      have hdef : Int.fract ((k : α) - x) = ((k : α) - x) - ⌊(k : α) - x⌋ :=
        (Int.self_sub_floor _).symm
      rw [hdef, hfloor]
      push_cast
      linarith
    unfold rhe
    rw [hfract, hfloor]
    rcases lt_trichotomy (Int.fract x) (1/2 : α) with hlt | heq | hgt
    · -- fract x < 1/2, so fract (k - x) > 1/2: both round "inward"
      have h1 : ¬ (1 - Int.fract x < 1/2) := by push_neg; linarith
      have h2 : (1:α)/2 < 1 - Int.fract x := by linarith
      simp only [if_pos hlt, if_neg h1, if_pos h2]
      omega
    · -- the tie case: parity of the two floors is opposite
      have h1 : ¬ (1 - Int.fract x < 1/2) := by push_neg; linarith
      have h2 : ¬ ((1:α)/2 < 1 - Int.fract x) := by push_neg; linarith
      have h3 : ¬ (Int.fract x < 1/2) := by push_neg; linarith
      have h4 : ¬ ((1:α)/2 < Int.fract x) := by push_neg; linarith
      simp only [if_neg h1, if_neg h2, if_neg h3, if_neg h4]
      by_cases hpar : ⌊x⌋ % 2 = 0
      · have : ¬ ((k - ⌊x⌋ - 1) % 2 = 0) := by omega
        simp only [if_pos hpar, if_neg this]
        omega
      · have : (k - ⌊x⌋ - 1) % 2 = 0 := by omega
        simp only [if_neg hpar, if_pos this]
        omega
    · -- fract x > 1/2, so fract (k - x) < 1/2
      have h1 : 1 - Int.fract x < 1/2 := by linarith
      have h3 : ¬ (Int.fract x < 1/2) := by push_neg; linarith
      simp only [if_pos h1, if_neg h3, if_pos hgt]
      omega

theorem round4_mono {x y : α} (h : x ≤ y) : round4 x ≤ round4 y := by
  unfold round4
  have h1 : x * 10000 ≤ y * 10000 := by nlinarith
  have h2 := rhe_mono h1
  have h3 : ((rhe (x * 10000) : ℤ) : α) ≤ ((rhe (y * 10000) : ℤ) : α) := by
    exact_mod_cast h2
  have h4 : (0:α) < 10000 := by norm_num
  exact (div_le_div_iff_of_pos_right h4).mpr h3

theorem round4_zero : round4 (0 : α) = 0 := by
  unfold round4
  rw [show (0:α) * 10000 = (((0:ℤ)) : α) by norm_num, rhe_intCast]
  norm_num

theorem round4_nonneg {x : α} (h : 0 ≤ x) : 0 ≤ round4 x := by
  have := round4_mono (α := α) (x := 0) (y := x) h
  rwa [round4_zero] at this

theorem round4_le_one {x : α} (h : x ≤ 1) : round4 x ≤ 1 := by
  unfold round4
  have h1 : x * 10000 ≤ ((10000 : ℤ) : α) := by push_cast; nlinarith
  have h2 := rhe_le_intCast h1
  have h3 : ((rhe (x * 10000) : ℤ) : α) ≤ 10000 := by exact_mod_cast h2
  have h4 : (0:α) < 10000 := by norm_num
  rw [div_le_one h4]
  exact h3

theorem round4_one_sub (x : α) : round4 (1 - x) = 1 - round4 x := by
  unfold round4
  have h1 : (1 - x) * 10000 = ((10000 : ℤ) : α) - x * 10000 := by push_cast; ring
  rw [h1, rhe_even_sub (by norm_num)]
  push_cast
  ring

/-- Transport of `rhe` along the cast `ℚ → ℝ`. -/
theorem rhe_ratCast (q : ℚ) : rhe ((q : ℝ)) = rhe q := by
  have hfloor : ⌊(q : ℝ)⌋ = ⌊q⌋ := Rat.floor_cast q
  have hfract : Int.fract ((q : ℝ)) = ((Int.fract q : ℚ) : ℝ) := by
    rw [Int.fract, Int.fract, hfloor]
    push_cast
    ring
  unfold rhe
  rw [hfract, hfloor]
  have hlt : (((Int.fract q : ℚ) : ℝ) < 1/2) ↔ (Int.fract q < 1/2) := by
    rw [show ((1:ℝ)/2) = (((1/2 : ℚ)) : ℝ) by norm_num]
    exact Rat.cast_lt
  have hgt : ((1:ℝ)/2 < ((Int.fract q : ℚ) : ℝ)) ↔ ((1:ℚ)/2 < Int.fract q) := by
    rw [show ((1:ℝ)/2) = (((1/2 : ℚ)) : ℝ) by norm_num]
    exact Rat.cast_lt
  split
  · rename_i h
    rw [if_pos (hlt.mp h)]
  · rename_i h
    rw [if_neg (fun hh => h (hlt.mpr hh))]
    split
    · rename_i h2
      rw [if_pos (hgt.mp h2)]
    · rename_i h2
      rw [if_neg (fun hh => h2 (hgt.mpr hh))]

theorem round4_ratCast (q : ℚ) : round4 ((q : ℝ)) = ((round4 q : ℚ) : ℝ) := by
  unfold round4
  have h : (q : ℝ) * 10000 = (((q * 10000 : ℚ)) : ℝ) := by push_cast; ring
  rw [h, rhe_ratCast]
  push_cast
  ring

theorem rhe_eq_floor_of {x : α} {k : ℤ} (h1 : (k:α) ≤ x) (h2 : x < (k:α) + 1/2) :
    rhe x = k := by
  have hfl : ⌊x⌋ = k := Int.floor_eq_iff.mpr ⟨h1, by linarith⟩
  have hfr : Int.fract x < 1/2 := by
    have hd := Int.self_sub_floor x
    rw [hfl] at hd
    linarith [hd ▸ (show x - (k:α) < 1/2 by linarith)]
  rw [rhe_of_fract_lt hfr, hfl]

theorem rhe_eq_ceil_of {x : α} {k : ℤ} (h1 : (k:α) + 1/2 < x) (h2 : x < (k:α) + 1) :
    rhe x = k + 1 := by
  have hfl : ⌊x⌋ = k := Int.floor_eq_iff.mpr ⟨by linarith, by linarith⟩
  have hfr : 1/2 < Int.fract x := by
    have hd := Int.self_sub_floor x
    rw [hfl] at hd
    linarith [hd ▸ (show (1:α)/2 < x - (k:α) by linarith)]
  rw [rhe_of_lt_fract hfr, hfl]

/-- Evaluation rule for `round4` at a value whose scaled fractional part is
below one half. -/
theorem round4_eq_of_lt {x : α} {k : ℤ} (h1 : (k:α) ≤ x * 10000)
    (h2 : x * 10000 < (k:α) + 1/2) : round4 x = (k:α) / 10000 := by
  unfold round4
  rw [rhe_eq_floor_of h1 h2]

end RoundingLemmas

theorem zVal_pos : 0 < zVal := by norm_num [zVal]

theorem one_le_zVal : 1 ≤ zVal := by norm_num [zVal]

theorem wilson_denom_pos (n : ℕ) : 0 < 1 + zVal^2/(n:ℝ) := by
  have h1 : 0 ≤ zVal^2/(n:ℝ) := div_nonneg (sq_nonneg _) (Nat.cast_nonneg n)
  linarith

theorem wilson_rad_nonneg {p : ℝ} (hp : 0 ≤ p) (hp1 : p ≤ 1) (n : ℕ) :
    0 ≤ p*(1-p)/(n:ℝ) + zVal^2/(4*(n:ℝ)^2) := by
  have h1 : 0 ≤ p*(1-p) := mul_nonneg hp (by linarith)
  have h2 : 0 ≤ p*(1-p)/(n:ℝ) := div_nonneg h1 (Nat.cast_nonneg n)
  have h3 : 0 ≤ zVal^2/(4*(n:ℝ)^2) := by positivity
  linarith

theorem wMargin_nonneg {p : ℝ} (n : ℕ) : 0 ≤ wMargin p n := by
  unfold wMargin
  exact div_nonneg (mul_nonneg zVal_pos.le (Real.sqrt_nonneg _)) (wilson_denom_pos n).le

/-- Sum of the two (unclamped) Wilson endpoints. -/
theorem wilson_sum {p : ℝ} (n : ℕ) (hn : 0 < n) :
    (wCenter p n - wMargin p n) + (wCenter p n + wMargin p n)
      = (2*p + zVal^2/(n:ℝ)) / (1 + zVal^2/(n:ℝ)) := by
  have hN : (0:ℝ) < n := Nat.cast_pos.mpr hn
  have hD := wilson_denom_pos n
  unfold wCenter
  field_simp
  ring

/-- Product of the two (unclamped) Wilson endpoints. -/
theorem wilson_prod {p : ℝ} (hp : 0 ≤ p) (hp1 : p ≤ 1) (n : ℕ) (hn : 0 < n) :
    (wCenter p n - wMargin p n) * (wCenter p n + wMargin p n)
      = p^2 / (1 + zVal^2/(n:ℝ)) := by
  have hN : (0:ℝ) < n := Nat.cast_pos.mpr hn
  have hD := wilson_denom_pos n
  have hsq : (wCenter p n - wMargin p n) * (wCenter p n + wMargin p n)
      = wCenter p n ^ 2 - wMargin p n ^ 2 := by ring
  have hm2 : wMargin p n ^ 2
      = zVal^2 * (p*(1-p)/(n:ℝ) + zVal^2/(4*(n:ℝ)^2)) / (1 + zVal^2/(n:ℝ))^2 := by
    unfold wMargin
    rw [div_pow, mul_pow, Real.sq_sqrt (wilson_rad_nonneg hp hp1 n)]
  rw [hsq, hm2]
  unfold wCenter
  field_simp
  ring

/-- Abstract bounds for a pair `L ≤ U` with the Wilson sum/product: both roots
of `(x-p)² = (z²/N)·x·(1-x)` lie in `[0,1]` and bracket `p`. -/
theorem quadRootBounds {z N p L U : ℝ} (hz : 0 < z) (hN : 0 < N)
    (hp : 0 ≤ p) (hp1 : p ≤ 1) (hLU : L ≤ U)
    (hsum : L + U = (2*p + z^2/N) / (1 + z^2/N))
    (hprod : L * U = p^2 / (1 + z^2/N)) :
    0 ≤ L ∧ L ≤ p ∧ p ≤ U ∧ U ≤ 1 := by
  have hD : (0:ℝ) < 1 + z^2/N := by positivity
  have hzN : (0:ℝ) < z^2/N := by positivity
  have e1 : (1 + z^2/N) * (L + U) = 2*p + z^2/N := by
    rw [hsum]; field_simp; ring
  have e2 : (1 + z^2/N) * (L * U) = p^2 := by
    rw [hprod]; field_simp; ring
  have hsum_pos : 0 < L + U := by
    rw [hsum]
    exact div_pos (by linarith) hD
  have hprod_nonneg : 0 ≤ L * U := by
    rw [hprod]
    exact div_nonneg (sq_nonneg p) hD.le
  have hL0 : 0 ≤ L := by
    by_contra hneg
    push_neg at hneg
    have hUpos : 0 < U := by linarith
    have : L * U < 0 := mul_neg_of_neg_of_pos hneg hUpos
    linarith
  have hpLU : (p - L) * (p - U) ≤ 0 := by
    have hval : (1 + z^2/N) * ((p - L) * (p - U)) = (z^2/N) * (p^2 - p) := by
      have expand : (1 + z^2/N) * ((p - L) * (p - U))
          = (1 + z^2/N) * p^2 - p * ((1 + z^2/N) * (L + U)) + (1 + z^2/N) * (L * U) := by
        ring
      rw [expand, e1, e2]; ring
    have hrhs : (z^2/N) * (p^2 - p) ≤ 0 := by
      have h1 : p^2 - p ≤ 0 := by nlinarith
      exact mul_nonpos_of_nonneg_of_nonpos hzN.le h1
    by_contra hpos
    push_neg at hpos
    have : 0 < (1 + z^2/N) * ((p - L) * (p - U)) := mul_pos hD hpos
    linarith [hval ▸ this]
  have hLp : L ≤ p := by
    by_contra hgtp
    push_neg at hgtp
    have h1 : 0 < (p - L) * (p - U) := by
      have ha : p - L < 0 := by linarith
      have hb : p - U < 0 := by linarith
      exact mul_pos_of_neg_of_neg ha hb
    linarith
  have hpU : p ≤ U := by
    by_contra hgtp
    push_neg at hgtp
    have h1 : 0 < (p - L) * (p - U) := by
      have ha : 0 < p - L := by linarith
      have hb : 0 < p - U := by linarith
      exact mul_pos ha hb
    linarith
  have hU1 : U ≤ 1 := by
    have hval : (1 + z^2/N) * ((1 - L) * (1 - U)) = (1 - p)^2 := by
      have expand : (1 + z^2/N) * ((1 - L) * (1 - U))
          = (1 + z^2/N) - ((1 + z^2/N) * (L + U)) + (1 + z^2/N) * (L * U) := by
        ring
      rw [expand, e1, e2]; ring
    have hfac : 0 ≤ (1 - L) * (1 - U) := by
      by_contra hneg
      push_neg at hneg
      have : (1 + z^2/N) * ((1 - L) * (1 - U)) < 0 := mul_neg_of_pos_of_neg hD hneg
      nlinarith [sq_nonneg (1 - p)]
    by_contra hU
    push_neg at hU
    have hL1 : 1 ≤ L := by
      by_contra hL1n
      push_neg at hL1n
      have : (1 - L) * (1 - U) < 0 :=
        mul_neg_of_pos_of_neg (by linarith) (by linarith)
      linarith
    have hgt : (1 + z^2/N) * 2 < (1 + z^2/N) * (L + U) :=
      mul_lt_mul_of_pos_left (by linarith) hD
    linarith [e1, hgt]
  exact ⟨hL0, hLp, hpU, hU1⟩

/-- Factorisation of the Wilson quadratic `(x-p)² - (z²/N)·x·(1-x)` through a
pair with the Wilson sum and product. -/
theorem quadRootIdentity {z N p L U : ℝ} (hN : 0 < N)
    (hsum : L + U = (2*p + z^2/N) / (1 + z^2/N))
    (hprod : L * U = p^2 / (1 + z^2/N)) (x : ℝ) :
    (1 + z^2/N) * ((x - L) * (x - U)) = (x - p)^2 - (z^2/N) * (x * (1-x)) := by
  have hD : (0:ℝ) < 1 + z^2/N := by positivity
  have e1 : (1 + z^2/N) * (L + U) = 2*p + z^2/N := by rw [hsum]; field_simp; ring
  have e2 : (1 + z^2/N) * (L * U) = p^2 := by rw [hprod]; field_simp; ring
  have expand : (1 + z^2/N) * ((x - L) * (x - U))
      = (1 + z^2/N) * x^2 - x * ((1 + z^2/N) * (L + U)) + (1 + z^2/N) * (L * U) := by
    ring
  rw [expand, e1, e2]; ring

/-- Nesting of the abstract Wilson intervals: a larger sample size gives an
interval contained in the smaller sample's interval (for the same `p`). -/
theorem quadRootMono {z N₁ N₂ p L₁ U₁ L₂ U₂ : ℝ} (hz : 0 < z)
    (hN₁ : 0 < N₁) (h12 : N₁ ≤ N₂)
    (hp : 0 ≤ p) (hp1 : p ≤ 1)
    (hLU₁ : L₁ ≤ U₁) (hLU₂ : L₂ ≤ U₂)
    (hsum₁ : L₁ + U₁ = (2*p + z^2/N₁) / (1 + z^2/N₁))
    (hprod₁ : L₁ * U₁ = p^2 / (1 + z^2/N₁))
    (hsum₂ : L₂ + U₂ = (2*p + z^2/N₂) / (1 + z^2/N₂))
    (hprod₂ : L₂ * U₂ = p^2 / (1 + z^2/N₂)) :
    L₁ ≤ L₂ ∧ U₂ ≤ U₁ := by
  have hN₂ : 0 < N₂ := lt_of_lt_of_le hN₁ h12
  have hD₁ : (0:ℝ) < 1 + z^2/N₁ := by positivity
  have hD₂ : (0:ℝ) < 1 + z^2/N₂ := by positivity
  obtain ⟨hL₁0, hL₁p, hpU₁, hU₁1⟩ := quadRootBounds hz hN₁ hp hp1 hLU₁ hsum₁ hprod₁
  obtain ⟨hL₂0, hL₂p, hpU₂, hU₂1⟩ := quadRootBounds hz hN₂ hp hp1 hLU₂ hsum₂ hprod₂
  have htt : z^2/N₂ ≤ z^2/N₁ := by
    apply div_le_div_of_nonneg_left (sq_nonneg z) hN₁ h12
  have rootU₂ : (U₂ - p)^2 = (z^2/N₂) * (U₂ * (1-U₂)) := by
    have h := quadRootIdentity hN₂ hsum₂ hprod₂ U₂
    have hzero : (U₂ - U₂) = 0 := sub_self _
    rw [hzero, mul_zero, mul_zero] at h
    linarith
  have keyU : (1 + z^2/N₁) * ((U₂ - L₁) * (U₂ - U₁))
      = (z^2/N₂ - z^2/N₁) * (U₂ * (1 - U₂)) := by
    have h := quadRootIdentity hN₁ hsum₁ hprod₁ U₂
    rw [h, rootU₂]
    ring
  have hXnnU : 0 ≤ U₂ * (1 - U₂) := mul_nonneg (le_trans hp hpU₂) (by linarith)
  have hprodleU : (U₂ - L₁) * (U₂ - U₁) ≤ 0 := by
    have hr : (z^2/N₂ - z^2/N₁) * (U₂ * (1 - U₂)) ≤ 0 :=
      mul_nonpos_of_nonpos_of_nonneg (by linarith) hXnnU
    by_contra hpos
    push_neg at hpos
    have h2 : 0 < (1 + z^2/N₁) * ((U₂ - L₁) * (U₂ - U₁)) := mul_pos hD₁ hpos
    rw [keyU] at h2
    linarith
  have hUU : U₂ ≤ U₁ := by
    by_contra hlt
    push_neg at hlt
    have ha : 0 < U₂ - L₁ := by linarith
    have hb : 0 < U₂ - U₁ := by linarith
    have := mul_pos ha hb
    linarith
  have rootL₂ : (L₂ - p)^2 = (z^2/N₂) * (L₂ * (1-L₂)) := by
    have h := quadRootIdentity hN₂ hsum₂ hprod₂ L₂
    have hzero : (L₂ - L₂) = 0 := sub_self _
    rw [hzero, zero_mul, mul_zero] at h
    linarith
  have keyL : (1 + z^2/N₁) * ((L₂ - L₁) * (L₂ - U₁))
      = (z^2/N₂ - z^2/N₁) * (L₂ * (1 - L₂)) := by
    have h := quadRootIdentity hN₁ hsum₁ hprod₁ L₂
    rw [h, rootL₂]
    ring
  have hXnnL : 0 ≤ L₂ * (1 - L₂) := mul_nonneg hL₂0 (by linarith)
  have hprodleL : (L₂ - L₁) * (L₂ - U₁) ≤ 0 := by
    have hr : (z^2/N₂ - z^2/N₁) * (L₂ * (1 - L₂)) ≤ 0 :=
      mul_nonpos_of_nonpos_of_nonneg (by linarith) hXnnL
    by_contra hpos
    push_neg at hpos
    have h2 : 0 < (1 + z^2/N₁) * ((L₂ - L₁) * (L₂ - U₁)) := mul_pos hD₁ hpos
    rw [keyL] at h2
    linarith
  have hLL : L₁ ≤ L₂ := by
    by_contra hlt
    push_neg at hlt
    have ha : L₂ - L₁ < 0 := by linarith
    have hb : L₂ - U₁ < 0 := by linarith
    have := mul_pos_of_neg_of_neg ha hb
    linarith
  exact ⟨hLL, hUU⟩

/-- The unclamped Wilson endpoints lie in `[0,1]` and bracket `p`. -/
theorem wilson_unclamped_bounds {p : ℝ} (hp : 0 ≤ p) (hp1 : p ≤ 1)
    {n : ℕ} (hn : 0 < n) :
    0 ≤ wCenter p n - wMargin p n ∧ wCenter p n - wMargin p n ≤ p ∧
    p ≤ wCenter p n + wMargin p n ∧ wCenter p n + wMargin p n ≤ 1 := by
  have hN : (0:ℝ) < n := Nat.cast_pos.mpr hn
  exact quadRootBounds zVal_pos hN hp hp1
    (by linarith [wMargin_nonneg (p := p) n])
    (wilson_sum n hn) (wilson_prod hp hp1 n hn)

/-- Nesting of the unclamped Wilson intervals in the sample size. -/
theorem wilson_nested {p : ℝ} (hp : 0 ≤ p) (hp1 : p ≤ 1)
    {n₁ n₂ : ℕ} (h1 : 0 < n₁) (h12 : n₁ ≤ n₂) :
    wCenter p n₁ - wMargin p n₁ ≤ wCenter p n₂ - wMargin p n₂ ∧
    wCenter p n₂ + wMargin p n₂ ≤ wCenter p n₁ + wMargin p n₁ := by
  have h2 : 0 < n₂ := lt_of_lt_of_le h1 h12
  have hN₁ : (0:ℝ) < n₁ := Nat.cast_pos.mpr h1
  have hc12 : ((n₁:ℝ)) ≤ ((n₂:ℝ)) := Nat.cast_le.mpr h12
  exact quadRootMono zVal_pos hN₁ hc12 hp hp1
    (by linarith [wMargin_nonneg (p := p) n₁])
    (by linarith [wMargin_nonneg (p := p) n₂])
    (wilson_sum n₁ h1) (wilson_prod hp hp1 n₁ h1)
    (wilson_sum n₂ h2) (wilson_prod hp hp1 n₂ h2)

/-!
Helper lemmas about the runner.
-/

theorem runTrial_ok_le_one (jid aid : String) (item : TestItem)
    (inv : Option String) : (runTrial jid aid item inv).ok ≤ 1 := by
  cases inv with
  | none => simp [runTrial]
  | some p =>
    simp only [runTrial]
    split <;> omega

theorem runTrial_ok_none (jid aid : String) (item : TestItem) :
    (runTrial jid aid item none).ok = 0 := rfl

theorem sum_le_length_of_le_one : ∀ {l : List ℕ}, (∀ x ∈ l, x ≤ 1) →
    l.sum ≤ l.length := by
  intro l
  induction l with
  | nil => simp
  | cons a t ih =>
    intro h
    simp only [List.sum_cons, List.length_cons]
    have ha := h a (by simp)
    have ht := ih (fun x hx => h x (by simp [hx]))
    omega

theorem successesOf_le_length (trials : List TrialResult)
    (h : ∀ t ∈ trials, t.ok ≤ 1) : successesOf trials ≤ trials.length := by
  unfold successesOf
  have : (trials.map TrialResult.ok).length = trials.length := List.length_map _ _
  rw [← this]
  apply sum_le_length_of_le_one
  intro x hx
  rcases List.mem_map.mp hx with ⟨t, ht, rfl⟩
  exact h t ht

theorem trialsFor_ok_le_one (job : Job) (invoke : ℕ → Option String) :
    ∀ t ∈ trialsFor job invoke, t.ok ≤ 1 := by
  intro t ht
  rcases List.mem_map.mp ht with ⟨pr, _, rfl⟩
  exact runTrial_ok_le_one _ _ _ _

theorem trialsFor_length (job : Job) (invoke : ℕ → Option String) :
    (trialsFor job invoke).length
      = (sampleFor (load_tests_for job.capabilities) job.n).length := by
  simp [trialsFor]

theorem trialsFor_all_fail (job : Job) (invoke : ℕ → Option String)
    (hfail : ∀ i, invoke i = none) : ∀ t ∈ trialsFor job invoke, t.ok = 0 := by
  intro t ht
  rcases List.mem_map.mp ht with ⟨pr, _, rfl⟩
  rw [hfail pr.1]
  rfl

theorem successesOf_eq_zero (trials : List TrialResult)
    (h : ∀ t ∈ trials, t.ok = 0) : successesOf trials = 0 := by
  unfold successesOf
  apply List.sum_eq_zero
  intro x hx
  rcases List.mem_map.mp hx with ⟨t, ht, rfl⟩
  exact h t ht

theorem sampleFor_length {tests : List TestItem} (h : tests ≠ []) (n : ℤ) :
    (sampleFor tests n).length = n.toNat := by
  unfold sampleFor
  rw [List.length_take]
  have hflat : ((List.replicate ((n.fdiv tests.length + 1).toNat) tests).flatten).length
      = (n.fdiv tests.length + 1).toNat * tests.length := by
    rw [List.length_flatten, List.map_replicate, List.sum_replicate, smul_eq_mul]
  rw [hflat]
  rcases le_or_lt n 0 with hn | hn
  · rw [Int.toNat_of_nonpos hn]
    simp
  · have hlen : 0 < tests.length := List.length_pos.mpr h
    have hlenZ : (0:ℤ) < (tests.length : ℤ) := by exact_mod_cast hlen
    have hfd : n.fdiv (tests.length : ℤ) = n / (tests.length : ℤ) :=
      Int.fdiv_eq_ediv n hlenZ.le
    have hdnn : 0 ≤ n.fdiv (tests.length : ℤ) := Int.fdiv_nonneg hn.le hlenZ.le
    have hlt : n < (n / (tests.length : ℤ) + 1) * (tests.length : ℤ) :=
      Int.lt_ediv_add_one_mul_self n hlenZ
    have hk : n.toNat ≤ (n.fdiv (tests.length : ℤ) + 1).toNat * tests.length := by
      have hcast : ((n.fdiv (tests.length : ℤ) + 1).toNat * tests.length : ℤ)
          = (n.fdiv (tests.length : ℤ) + 1) * (tests.length : ℤ) := by
        push_cast [Int.toNat_of_nonneg (by omega : 0 ≤ n.fdiv (tests.length : ℤ) + 1)]
        ring
      have : (n.toNat : ℤ) ≤ ((n.fdiv (tests.length : ℤ) + 1).toNat * tests.length : ℤ) := by
        rw [hcast, Int.toNat_of_nonneg hn.le, hfd]
        linarith
      exact_mod_cast this
    omega

theorem runJob_error {job : Job} (invoke : ℕ → Option String)
    (h : load_tests_for job.capabilities = []) :
    runJob job invoke =
      { status := "error",
        message := some "no tests for requested capabilities",
        trials := [], cert := none, invocations := 0 } := by
  unfold runJob
  rw [if_pos (by simp [h])]

theorem runJob_done {job : Job} (invoke : ℕ → Option String)
    (h : load_tests_for job.capabilities ≠ []) :
    runJob job invoke =
      { status := "done", message := none,
        trials := trialsFor job invoke,
        cert := some (certFor job (trialsFor job invoke)),
        invocations := (sampleFor (load_tests_for job.capabilities) job.n).length } := by
  unfold runJob
  rw [if_neg (by simpa [List.isEmpty_iff] using h)]

theorem certFor_score (job : Job) (trials : List TrialResult) :
    (certFor job trials).score
      = round4 ((successesOf trials : ℚ) / ((max 1 job.n : ℤ) : ℚ)) := rfl

theorem certFor_passed (job : Job) (trials : List TrialResult) :
    (certFor job trials).passed
      = decide (job.pass_threshold ≤ (successesOf trials : ℚ) / ((max 1 job.n : ℤ) : ℚ)) := rfl

theorem certFor_ciLo (job : Job) (trials : List TrialResult) :
    (certFor job trials).ciLo
      = round4 (wilson_ci (successesOf trials) (max 1 job.n).toNat).1 := rfl

theorem certFor_ciHi (job : Job) (trials : List TrialResult) :
    (certFor job trials).ciHi
      = round4 (wilson_ci (successesOf trials) (max 1 job.n).toNat).2 := rfl

/-- Clamped Wilson interval brackets the proportion and stays in `[0,1]`. -/
theorem wilson_ci_chain {s n : ℕ} (hn : 0 < n) (hs : s ≤ n) :
    0 ≤ (wilson_ci s n).1 ∧ (wilson_ci s n).1 ≤ (s:ℝ)/n ∧
    (s:ℝ)/n ≤ (wilson_ci s n).2 ∧ (wilson_ci s n).2 ≤ 1 := by
  have hN : (0:ℝ) < n := Nat.cast_pos.mpr hn
  have hp0 : 0 ≤ (s:ℝ)/n := div_nonneg (Nat.cast_nonneg s) hN.le
  have hp1 : (s:ℝ)/n ≤ 1 := (div_le_one hN).mpr (by exact_mod_cast hs)
  obtain ⟨hL0, hLp, hpU, hU1⟩ := wilson_unclamped_bounds hp0 hp1 hn
  unfold wilson_ci
  rw [if_neg hn.ne']
  exact ⟨le_max_left 0 _, max_le hp0 hLp, le_min hp1 hpU, min_le_left 1 _⟩

/-- Membership structure of a `decide_actions` result. -/
theorem decide_actions_spec (thresh delta : ℚ) (minN : ℤ) (rep : ℚ)
    (pn : ℤ) (ps cs : ℚ) (ok : Bool) :
    "monitor" ∈ decide_actions thresh delta minN rep pn ps cs ok ∧
    ("rate_limit" ∈ decide_actions thresh delta minN rep pn ps cs ok ↔
      rep < thresh) ∧
    ("recert_requested" ∈ decide_actions thresh delta minN rep pn ps cs ok ↔
      ((0 < cs ∧ minN ≤ pn ∧ delta ≤ cs - ps) ∧ ok = true)) ∧
    ("recert_failed" ∈ decide_actions thresh delta minN rep pn ps cs ok ↔
      ((0 < cs ∧ minN ≤ pn ∧ delta ≤ cs - ps) ∧ ok = false)) := by
  unfold decide_actions
  by_cases h1 : rep < thresh <;>
    by_cases h2 : 0 < cs ∧ minN ≤ pn ∧ delta ≤ cs - ps <;>
      cases ok <;> simp [h1, h2]

/-- C8: a job whose requested capabilities match zero test-bank items ends in
status `error`; no trial record is produced, no agent invocation happens and
no certificate is issued. -/
theorem c8_no_tests_error (job : Job) (invoke : ℕ → Option String)
    (h : load_tests_for job.capabilities = []) :
    (runJob job invoke).status = "error" ∧ (runJob job invoke).trials = [] ∧
    (runJob job invoke).cert = none ∧ (runJob job invoke).invocations = 0 := by
  rw [runJob_error invoke h]
  exact ⟨rfl, rfl, rfl, rfl⟩

/-- Witness for C8 at a capability with zero bank entries. -/
theorem c8_witness :
    load_tests_for ["qa.smalltalk"] = [] ∧
    ((runJob (jobFor ["qa.smalltalk"] 5 (4/5)) (fun _ => none)).status = "error" ∧
     (runJob (jobFor ["qa.smalltalk"] 5 (4/5)) (fun _ => none)).trials = [] ∧
     (runJob (jobFor ["qa.smalltalk"] 5 (4/5)) (fun _ => none)).cert = none ∧
     (runJob (jobFor ["qa.smalltalk"] 5 (4/5)) (fun _ => none)).invocations = 0) :=
  ⟨by decide, c8_no_tests_error (jobFor ["qa.smalltalk"] 5 (4/5)) (fun _ => none) (by decide)⟩

/-- C2 counterexample: a start request with an empty capability list and
`n = 0` is not rejected; the handler queues a job with the default capability
list and the unvalidated `n = 0`. -/
theorem c2_counterexample :
    handle_start "job_1" "agent://unknown/abc123" startReqEmptyCaps
      = StartResponse.queued
        { cert_job_id := "job_1", agent_id := "agent://unknown/abc123",
          endpoint := "http://127.0.0.1:6001/a2a",
          capabilities := ["math.g1_g12"], n := 0, rps := 1,
          pass_threshold := 4/5 } := rfl

/-- C2 amended: the start action validates nothing.  Every request is queued;
a missing or empty capability list silently becomes `["math.g1_g12"]`, and
`n` is used exactly as supplied (default 50), with no `n ≥ 1` check. -/
theorem c2_start_never_rejects (fid faid : String) (req : StartRequest) :
    ∃ j : Job, handle_start fid faid req = StartResponse.queued j ∧
      j.n = req.n.getD 50 ∧
      j.capabilities = orDefaultList req.capabilities ["math.g1_g12"] ∧
      (req.capabilities = some [] → j.capabilities = ["math.g1_g12"]) := by
  refine ⟨_, rfl, rfl, rfl, ?_⟩
  intro h
  rw [h]
  rfl

/-- Witness for the amended C2. -/
theorem c2_witness :
    ∃ j : Job, handle_start "job_1" "agent://unknown/abc123" startReqEmptyCaps
        = StartResponse.queued j ∧
      j.n = startReqEmptyCaps.n.getD 50 ∧
      j.capabilities = orDefaultList startReqEmptyCaps.capabilities ["math.g1_g12"] ∧
      (startReqEmptyCaps.capabilities = some [] → j.capabilities = ["math.g1_g12"]) :=
  c2_start_never_rejects "job_1" "agent://unknown/abc123" startReqEmptyCaps

/-- C5: the action list of every reputation computation contains `monitor`;
contains `rate_limit` exactly when the clamped reputation is strictly below
the rate-limit threshold; and contains `recert_requested` (control-plane call
went through) respectively `recert_failed` (transport failure) exactly when
the drift condition — positive last certificate score, probe sample at least
the minimum, drop at least the delta — holds. -/
theorem c5_action_policy (wA wP wC wF thresh delta : ℚ) (minN : ℤ)
    (aid : String) (av fr ps cs : ℚ) (pn : ℤ) (ok : Bool) :
    "monitor" ∈ (compute_reputation wA wP wC wF thresh delta minN aid av fr pn ps cs ok).actions ∧
    ("rate_limit" ∈ (compute_reputation wA wP wC wF thresh delta minN aid av fr pn ps cs ok).actions ↔
      clamp01 (wA * av + wP * ps + wC * cs - wF * fr) < thresh) ∧
    ("recert_requested" ∈ (compute_reputation wA wP wC wF thresh delta minN aid av fr pn ps cs ok).actions ↔
      ((0 < cs ∧ minN ≤ pn ∧ delta ≤ cs - ps) ∧ ok = true)) ∧
    ("recert_failed" ∈ (compute_reputation wA wP wC wF thresh delta minN aid av fr pn ps cs ok).actions ↔
      ((0 < cs ∧ minN ≤ pn ∧ delta ≤ cs - ps) ∧ ok = false)) := by
  have hact : (compute_reputation wA wP wC wF thresh delta minN aid av fr pn ps cs ok).actions
      = decide_actions thresh delta minN
          (clamp01 (wA * av + wP * ps + wC * cs - wF * fr)) pn ps cs ok := rfl
  rw [hact]
  exact decide_actions_spec thresh delta minN _ pn ps cs ok

/-- C10: when either side normalises to zero whitespace tokens, the token-set
F1 is 0, so the open-QA default grader marks the trial incorrect — even when
prediction and gold are both empty, hence equal — while the exact-numeric
grader marks two strings that both normalise to empty as correct. -/
theorem c10_empty_token_grading (cap pred gold : String)
    (hcap : cap ≠ "math.g1_g12")
    (h : normTokens pred = [] ∨ normTokens gold = []) :
    f1_score pred gold = 0 ∧ grade_item cap pred gold = 0 ∧
    (normTokens pred = [] → normTokens gold = [] →
      grade_math_exact pred gold = 1) := by
  have hf : f1_score pred gold = 0 := by
    unfold f1_score
    rcases h with h | h <;> simp [h]
  refine ⟨hf, ?_, ?_⟩
  · unfold grade_item
    rw [if_neg hcap, hf]
    norm_num
  · intro h1 h2
    unfold grade_math_exact normalize
    rw [h1, h2, if_pos rfl]

/-- Witness for C10 at an empty prediction and a whitespace-only gold. -/
theorem c10_witness :
    ("qa.general" : String) ≠ "math.g1_g12" ∧
    (normTokens "" = [] ∨ normTokens " " = []) ∧
    (f1_score "" " " = 0 ∧ grade_item "qa.general" "" " " = 0 ∧
     (normTokens "" = [] → normTokens " " = [] → grade_math_exact "" " " = 1)) :=
  ⟨by decide, Or.inl rfl,
    c10_empty_token_grading "qa.general" "" " " (by decide) (Or.inl rfl)⟩

/-- C4 amended: the computed reputation is exactly
`clamp01(w_avail·availability + w_probe·probe + w_cert·cert − w_flags·fraud)`
and lies in `[0,1]` for arbitrary inputs and weights; the persisted `rep`
field is that value rounded to 4 decimal places and also lies in `[0,1]`. -/
theorem c4_reputation_clamped (wA wP wC wF thresh delta : ℚ) (minN : ℤ)
    (aid : String) (av fr ps cs : ℚ) (pn : ℤ) (ok : Bool) :
    (compute_reputation wA wP wC wF thresh delta minN aid av fr pn ps cs ok).rep
      = round4 (clamp01 (wA * av + wP * ps + wC * cs - wF * fr)) ∧
    0 ≤ clamp01 (wA * av + wP * ps + wC * cs - wF * fr) ∧
    clamp01 (wA * av + wP * ps + wC * cs - wF * fr) ≤ 1 ∧
    0 ≤ (compute_reputation wA wP wC wF thresh delta minN aid av fr pn ps cs ok).rep ∧
    (compute_reputation wA wP wC wF thresh delta minN aid av fr pn ps cs ok).rep ≤ 1 := by
  have hrep : (compute_reputation wA wP wC wF thresh delta minN aid av fr pn ps cs ok).rep
      = round4 (clamp01 (wA * av + wP * ps + wC * cs - wF * fr)) := rfl
  have h0 : 0 ≤ clamp01 (wA * av + wP * ps + wC * cs - wF * fr) := le_max_left _ _
  have h1 : clamp01 (wA * av + wP * ps + wC * cs - wF * fr) ≤ 1 := by
    unfold clamp01
    exact max_le (by norm_num) (min_le_left _ _)
  exact ⟨hrep, h0, h1, hrep ▸ round4_nonneg h0, hrep ▸ round4_le_one h1⟩

/-- C4 counterexample: with the default weights and availability `1/3` the
persisted reputation is the rounded value `0.1333`, not the exact
`clamp01` combination `2/15`. -/
theorem c4_counterexample :
    (compute_reputation (2/5) (2/5) (1/5) (1/10) (1/2) (3/20) 10 "a"
        (1/3) 0 0 0 0 true).rep
      ≠ clamp01 ((2/5) * (1/3) + (2/5) * 0 + (1/5) * 0 - (1/10) * 0) := by
  have hsum : ((2:ℚ)/5) * (1/3) + (2/5) * 0 + (1/5) * 0 - (1/10) * 0 = 2/15 := by
    norm_num
  have hval : clamp01 (((2:ℚ)/5) * (1/3) + (2/5) * 0 + (1/5) * 0 - (1/10) * 0)
      = 2/15 := by
    unfold clamp01
    rw [hsum, min_eq_right (by norm_num : (2:ℚ)/15 ≤ 1),
      max_eq_right (by norm_num : (0:ℚ) ≤ 2/15)]
  have hrep : (compute_reputation (2/5) (2/5) (1/5) (1/10) (1/2) (3/20) 10 "a"
        (1/3) 0 0 0 0 true).rep
      = round4 (clamp01 (((2:ℚ)/5) * (1/3) + (2/5) * 0 + (1/5) * 0 - (1/10) * 0)) := rfl
  rw [hrep, hval, round4_eq_of_lt (k := 1333) (by norm_num) (by norm_num)]
  norm_num

/-- C3 counterexample: on the exact-numeric capability the probe grader and
the certification grader disagree at prediction `"x = 3"`, gold `"3"`: the
probe's substring rule accepts, the exact rule rejects. -/
theorem c3_counterexample :
    match_success "x = 3" "3" = 1 ∧ grade_item "math.g1_g12" "x = 3" "3" = 0 :=
  ⟨by decide, by decide⟩

/-- C3 amended: the probe runner grades every trial with the
equality-or-substring rule `match_success`, which does not agree with the
certification rule of section 4.1.  The agreement is one-sided and only with
the exact-numeric arm: every pair the exact-numeric grader accepts the probe
grader also accepts, but not conversely; and the probe grader disagrees with
the open-QA F1 arm in both directions — it rejects F1-passing answers that
do not contain the gold, and accepts pairs that both normalise to empty,
which the F1 rule rejects. -/
theorem c3_probe_grader_differs (pred gold : String)
    (h : grade_math_exact pred gold = 1) :
    match_success pred gold = 1 ∧
    (grade_item "qa.general" "carbon" "carbon dioxide" = 1 ∧
     match_success "carbon" "carbon dioxide" = 0) ∧
    (match_success "" " " = 1 ∧ grade_item "qa.general" "" " " = 0) := by
  have heq : normalize pred = normalize gold := by
    by_contra hne
    unfold grade_math_exact at h
    rw [if_neg hne] at h
    norm_num at h
  have hf : f1_score "carbon" "carbon dioxide" = 2/3 := by
    unfold f1_score
    rw [show (normTokens "carbon").dedup = [['c','a','r','b','o','n']] from rfl]
    rw [show (normTokens "carbon dioxide").dedup
        = [['c','a','r','b','o','n'], ['d','i','o','x','i','d','e']] from rfl]
    norm_num [List.filter]
  have hf0 : f1_score "" " " = 0 := by
    unfold f1_score
    simp [show normTokens "" = [] from rfl]
  refine ⟨?_, ⟨?_, by decide⟩, by decide, ?_⟩
  · unfold match_success
    rw [if_pos (Or.inl heq)]
  · unfold grade_item
    rw [if_neg (by decide : ¬ ("qa.general" : String) = "math.g1_g12"), hf,
      if_pos (by norm_num : (3:ℚ)/5 ≤ 2/3)]
  · unfold grade_item
    rw [if_neg (by decide : ¬ ("qa.general" : String) = "math.g1_g12"), hf0,
      if_neg (by norm_num : ¬ ((3:ℚ)/5 ≤ 0))]

/-- Witness for the amended C3 at a pair the exact-numeric grader accepts. -/
theorem c3_witness :
    grade_math_exact "3" " 3 " = 1 ∧
    (match_success "3" " 3 " = 1 ∧
     (grade_item "qa.general" "carbon" "carbon dioxide" = 1 ∧
      match_success "carbon" "carbon dioxide" = 0) ∧
     (match_success "" " " = 1 ∧ grade_item "qa.general" "" " " = 0)) :=
  ⟨by decide, c3_probe_grader_differs "3" " 3 " (by decide)⟩

/-- C9 amended: the reported error rate always equals one minus the reported
availability (rounding commutes with the complement); zero matching events
give availability 0 and error rate 1; otherwise availability is the mean of
the success flags over the up-to-lookback most recent matching events,
rounded to 4 decimal places. -/
theorem c9_health_mean_rounded (log : List TelemetryEvent) (aid : String)
    (lookback : ℕ) :
    (health_for_agent log aid lookback).error_rate
      = 1 - (health_for_agent log aid lookback).availability ∧
    (matchingRows log aid lookback = [] →
      (health_for_agent log aid lookback).availability = 0 ∧
      (health_for_agent log aid lookback).error_rate = 1) ∧
    (matchingRows log aid lookback ≠ [] →
      (health_for_agent log aid lookback).availability
        = round4 ((((matchingRows log aid lookback).map TelemetryEvent.success).sum : ℚ)
            / ((matchingRows log aid lookback).length : ℚ))) := by
  refine ⟨?_, ?_, ?_⟩
  · rcases eq_or_ne (matchingRows log aid lookback) [] with he | he
    · simp [health_for_agent, he]
    · have hne : (matchingRows log aid lookback).isEmpty = false := by
        simpa [List.isEmpty_iff] using he
      simp only [health_for_agent, hne, Bool.false_eq_true, if_false]
      exact round4_one_sub _
  · intro he
    simp [health_for_agent, he]
  · intro he
    have hne : (matchingRows log aid lookback).isEmpty = false := by
      simpa [List.isEmpty_iff] using he
    have hlen : 1 ≤ (matchingRows log aid lookback).length := List.length_pos.mpr he
    have hmax : (max 1 ((matchingRows log aid lookback).length) : ℚ)
        = ((matchingRows log aid lookback).length : ℚ) := by
      rw [max_eq_right]
      exact_mod_cast hlen
    simp only [health_for_agent, hne, Bool.false_eq_true, if_false]
    rw [hmax]

/-- Witness for the amended C9 on a concrete log (three events, one
success). -/
theorem c9_witness :
    (health_for_agent telemetryLog3 "agent://target/1" 500).error_rate
      = 1 - (health_for_agent telemetryLog3 "agent://target/1" 500).availability ∧
    (matchingRows telemetryLog3 "agent://target/1" 500 = [] →
      (health_for_agent telemetryLog3 "agent://target/1" 500).availability = 0 ∧
      (health_for_agent telemetryLog3 "agent://target/1" 500).error_rate = 1) ∧
    (matchingRows telemetryLog3 "agent://target/1" 500 ≠ [] →
      (health_for_agent telemetryLog3 "agent://target/1" 500).availability
        = round4 ((((matchingRows telemetryLog3 "agent://target/1" 500).map
            TelemetryEvent.success).sum : ℚ)
            / ((matchingRows telemetryLog3 "agent://target/1" 500).length : ℚ))) :=
  c9_health_mean_rounded telemetryLog3 "agent://target/1" 500

/-- C9 counterexample: three matching events with one success have mean
`1/3`, but the reported availability is the rounded `0.3333 ≠ 1/3`. -/
theorem c9_counterexample :
    matchingRows telemetryLog3 "agent://target/1" 500 = telemetryLog3 ∧
    ((telemetryLog3.map TelemetryEvent.success).sum : ℚ)
      / (telemetryLog3.length : ℚ) = 1/3 ∧
    (health_for_agent telemetryLog3 "agent://target/1" 500).availability ≠ 1/3 := by
  refine ⟨rfl, by norm_num [telemetryLog3], ?_⟩
  have hav : (health_for_agent telemetryLog3 "agent://target/1" 500).availability
      = round4 ((1:ℚ)/3) := by
    show round4 ((((matchingRows telemetryLog3 "agent://target/1" 500).map
        TelemetryEvent.success).sum : ℚ)
        / (max 1 ((matchingRows telemetryLog3 "agent://target/1" 500).length) : ℚ))
      = round4 ((1:ℚ)/3)
    rw [show matchingRows telemetryLog3 "agent://target/1" 500 = telemetryLog3 from rfl]
    norm_num [telemetryLog3]
  rw [hav, round4_eq_of_lt (k := 3333) (by norm_num) (by norm_num)]
  norm_num

/-- C7 amended: with a non-empty test list, transport failures are absorbed
trial by trial: the job still runs all `n` trials, every failed invocation is
recorded as outcome 0, and if every invocation fails the job completes with
status `done`, certificate score 0, and `passed = false` whenever the pass
threshold is positive — never with job-level status `error`. -/
theorem c7_transport_failures_absorbed (job : Job) (invoke : ℕ → Option String)
    (hne : load_tests_for job.capabilities ≠ [])
    (hfail : ∀ i, invoke i = none) (hthresh : 0 < job.pass_threshold) :
    (runJob job invoke).status = "done" ∧
    (runJob job invoke).trials.length = job.n.toNat ∧
    (∀ t ∈ (runJob job invoke).trials, t.ok = 0) ∧
    (runJob job invoke).cert.map Certificate.score = some 0 ∧
    (runJob job invoke).cert.map Certificate.passed = some false := by
  rw [runJob_done invoke hne]
  have hall : ∀ t ∈ trialsFor job invoke, t.ok = 0 :=
    trialsFor_all_fail job invoke hfail
  have hsucc : successesOf (trialsFor job invoke) = 0 := successesOf_eq_zero _ hall
  have hscoreQ : ((successesOf (trialsFor job invoke) : ℚ) / ((max 1 job.n : ℤ) : ℚ)) = 0 := by
    rw [hsucc]
    norm_num
  refine ⟨rfl, ?_, hall, ?_, ?_⟩
  · show (trialsFor job invoke).length = job.n.toNat
    rw [trialsFor_length, sampleFor_length hne]
  · show some (certFor job (trialsFor job invoke)).score = some 0
    rw [certFor_score, hscoreQ, round4_zero]
  · show some (certFor job (trialsFor job invoke)).passed = some false
    rw [certFor_passed, hscoreQ, decide_eq_false (not_le.mpr hthresh)]

/-- Witness for the amended C7: a math job of three trials whose every
invocation times out. -/
theorem c7_witness :
    load_tests_for (jobFor ["math.g1_g12"] 3 1).capabilities ≠ [] ∧
    (0:ℚ) < (jobFor ["math.g1_g12"] 3 1).pass_threshold ∧
    ((runJob (jobFor ["math.g1_g12"] 3 1) (fun _ => none)).status = "done" ∧
     (runJob (jobFor ["math.g1_g12"] 3 1) (fun _ => none)).trials.length
       = (jobFor ["math.g1_g12"] 3 1).n.toNat ∧
     (∀ t ∈ (runJob (jobFor ["math.g1_g12"] 3 1) (fun _ => none)).trials, t.ok = 0) ∧
     (runJob (jobFor ["math.g1_g12"] 3 1) (fun _ => none)).cert.map Certificate.score
       = some 0 ∧
     (runJob (jobFor ["math.g1_g12"] 3 1) (fun _ => none)).cert.map Certificate.passed
       = some false) :=
  ⟨by decide, zero_lt_one,
    c7_transport_failures_absorbed (jobFor ["math.g1_g12"] 3 1) (fun _ => none)
      (by decide) (fun _ => rfl) zero_lt_one⟩

/-- C7 counterexample: with pass threshold 0, a job whose every invocation
fails still completes `done` with score 0 — but `passed = true`, not
`false` as the claim states for every such job. -/
theorem c7_counterexample :
    (runJob (jobFor ["math.g1_g12"] 1 0) (fun _ => none)).status = "done" ∧
    (runJob (jobFor ["math.g1_g12"] 1 0) (fun _ => none)).cert.map Certificate.score
      = some 0 ∧
    (runJob (jobFor ["math.g1_g12"] 1 0) (fun _ => none)).cert.map Certificate.passed
      = some true := by
  rw [runJob_done (fun _ => none) (by decide)]
  have hsucc : successesOf (trialsFor (jobFor ["math.g1_g12"] 1 0) (fun _ => none)) = 0 := by
    decide
  have hscoreQ : ((successesOf (trialsFor (jobFor ["math.g1_g12"] 1 0) (fun _ => none)) : ℚ)
      / ((max 1 (jobFor ["math.g1_g12"] 1 0).n : ℤ) : ℚ)) = 0 := by
    rw [hsucc]
    norm_num
  refine ⟨rfl, ?_, ?_⟩
  · show some (certFor (jobFor ["math.g1_g12"] 1 0)
        (trialsFor (jobFor ["math.g1_g12"] 1 0) (fun _ => none))).score = some 0
    rw [certFor_score, hscoreQ, round4_zero]
  · show some (certFor (jobFor ["math.g1_g12"] 1 0)
        (trialsFor (jobFor ["math.g1_g12"] 1 0) (fun _ => none))).passed = some true
    have hth : (jobFor ["math.g1_g12"] 1 0).pass_threshold ≤ (0:ℚ) := le_refl 0
    rw [certFor_passed, hscoreQ, decide_eq_true hth]

/-- C1 amended: for every completed job with `n ≥ 1`, the certificate's score
is `s/n` rounded to 4 decimal places (`s` the number of successes), and the
reported (rounded) Wilson 95% interval brackets it:
`0 ≤ lo ≤ score ≤ hi ≤ 1`. -/
theorem c1_certificate_score_interval (job : Job) (invoke : ℕ → Option String)
    (hn : 1 ≤ job.n) (hne : load_tests_for job.capabilities ≠ []) :
    ∃ c : Certificate, (runJob job invoke).cert = some c ∧
      c.score = round4 ((successesOf (runJob job invoke).trials : ℚ) / ((job.n : ℤ) : ℚ)) ∧
      0 ≤ c.ciLo ∧ c.ciLo ≤ ((c.score : ℚ) : ℝ) ∧
      ((c.score : ℚ) : ℝ) ≤ c.ciHi ∧ c.ciHi ≤ 1 := by
  rw [runJob_done invoke hne]
  have hmax : max 1 job.n = job.n := max_eq_right hn
  have hnn : (max 1 job.n).toNat = job.n.toNat := by rw [hmax]
  have hpos : 0 < job.n.toNat := by omega
  have hsle : successesOf (trialsFor job invoke) ≤ job.n.toNat := by
    calc successesOf (trialsFor job invoke) ≤ (trialsFor job invoke).length :=
      successesOf_le_length _ (trialsFor_ok_le_one job invoke)
    _ = (sampleFor (load_tests_for job.capabilities) job.n).length :=
      trialsFor_length job invoke
    _ = job.n.toNat := sampleFor_length hne job.n
  obtain ⟨h1, h2, h3, h4⟩ := wilson_ci_chain hpos hsle
  have hcast : (((successesOf (trialsFor job invoke) : ℚ) / ((job.n : ℤ) : ℚ) : ℚ) : ℝ)
      = ((successesOf (trialsFor job invoke) : ℕ) : ℝ) / ((job.n.toNat : ℕ) : ℝ) := by
    have htn : ((job.n.toNat : ℕ) : ℝ) = ((job.n : ℤ) : ℝ) := by
      have := Int.toNat_of_nonneg (by omega : (0:ℤ) ≤ job.n)
      exact_mod_cast congrArg (fun z : ℤ => (z : ℝ)) this
    rw [htn]
    push_cast
    ring
  refine ⟨certFor job (trialsFor job invoke), rfl, ?_, ?_, ?_, ?_, ?_⟩
  · rw [certFor_score, hmax]
  · rw [certFor_ciLo, hnn]
    exact round4_nonneg h1
  · rw [certFor_ciLo, certFor_score, hnn, hmax, ← round4_ratCast, hcast]
    exact round4_mono h2
  · rw [certFor_ciHi, certFor_score, hnn, hmax, ← round4_ratCast, hcast]
    exact round4_mono h3
  · rw [certFor_ciHi, hnn]
    exact round4_le_one h4

/-- Witness for the amended C1: a three-trial math job with one success. -/
theorem c1_witness :
    1 ≤ (jobFor ["math.g1_g12"] 3 (4/5)).n ∧
    load_tests_for (jobFor ["math.g1_g12"] 3 (4/5)).capabilities ≠ [] ∧
    (∃ c : Certificate,
      (runJob (jobFor ["math.g1_g12"] 3 (4/5)) oracleOneRight).cert = some c ∧
      c.score = round4
        ((successesOf (runJob (jobFor ["math.g1_g12"] 3 (4/5)) oracleOneRight).trials : ℚ)
          / (((jobFor ["math.g1_g12"] 3 (4/5)).n : ℤ) : ℚ)) ∧
      0 ≤ c.ciLo ∧ c.ciLo ≤ ((c.score : ℚ) : ℝ) ∧
      ((c.score : ℚ) : ℝ) ≤ c.ciHi ∧ c.ciHi ≤ 1) :=
  ⟨by decide, by decide,
    c1_certificate_score_interval (jobFor ["math.g1_g12"] 3 (4/5)) oracleOneRight
      (by decide) (by decide)⟩

/-- C1 counterexample: a three-trial job with one success stores the rounded
score `0.3333`, which differs from `s/n = 1/3`. -/
theorem c1_counterexample :
    (runJob (jobFor ["math.g1_g12"] 3 (4/5)) oracleOneRight).cert.map Certificate.score
      = some (3333/10000) ∧
    successesOf (runJob (jobFor ["math.g1_g12"] 3 (4/5)) oracleOneRight).trials = 1 ∧
    (runJob (jobFor ["math.g1_g12"] 3 (4/5)) oracleOneRight).trials.length = 3 ∧
    ((3333 : ℚ)/10000) ≠ (1 : ℚ)/3 := by
  rw [runJob_done oracleOneRight (by decide)]
  have hsucc : successesOf (trialsFor (jobFor ["math.g1_g12"] 3 (4/5)) oracleOneRight) = 1 := by
    decide
  refine ⟨?_, hsucc, by decide, by norm_num⟩
  show some (certFor (jobFor ["math.g1_g12"] 3 (4/5))
      (trialsFor (jobFor ["math.g1_g12"] 3 (4/5)) oracleOneRight)).score
    = some (3333/10000)
  rw [certFor_score, hsucc]
  have harg : ((1:ℕ):ℚ) / (((max 1 (jobFor ["math.g1_g12"] 3 (4/5)).n : ℤ)):ℚ) = 1/3 := by
    rw [show (max 1 (jobFor ["math.g1_g12"] 3 (4/5)).n : ℤ) = 3 from rfl]
    norm_num
  rw [harg, round4_eq_of_lt (k := 3333) (by norm_num) (by norm_num)]
  norm_num

/-- C6: the (clamped) Wilson bounds always lie in `[0,1]` for `0 ≤ s ≤ n`
(including `n = 0`), and for a fixed score `p = s/n` the reported interval
width decreases monotonically as `n` increases. -/
theorem c6_wilson_bounds_width (s n s₁ n₁ s₂ n₂ : ℕ)
    (hs : s ≤ n) (h1 : 0 < n₁) (h12 : n₁ ≤ n₂) (hs₁ : s₁ ≤ n₁) (_hs₂ : s₂ ≤ n₂)
    (hpe : s₁ * n₂ = s₂ * n₁) :
    (0 ≤ (wilson_ci s n).1 ∧ (wilson_ci s n).1 ≤ 1 ∧
     0 ≤ (wilson_ci s n).2 ∧ (wilson_ci s n).2 ≤ 1) ∧
    (wilson_ci s₂ n₂).2 - (wilson_ci s₂ n₂).1
      ≤ (wilson_ci s₁ n₁).2 - (wilson_ci s₁ n₁).1 := by
  constructor
  · rcases Nat.eq_zero_or_pos n with hn | hn
    · subst hn
      unfold wilson_ci
      norm_num
    · obtain ⟨a1, a2, a3, a4⟩ := wilson_ci_chain hn hs
      exact ⟨a1, le_trans a2 (le_trans a3 a4), le_trans a1 (le_trans a2 a3), a4⟩
  · have h2 : 0 < n₂ := lt_of_lt_of_le h1 h12
    have hN₁ : (0:ℝ) < n₁ := Nat.cast_pos.mpr h1
    have hN₂ : (0:ℝ) < n₂ := Nat.cast_pos.mpr h2
    have hpeq : (s₁:ℝ)/n₁ = (s₂:ℝ)/n₂ := by
      rw [div_eq_div_iff hN₁.ne' hN₂.ne']
      exact_mod_cast hpe
    have hp0 : 0 ≤ (s₁:ℝ)/n₁ := div_nonneg (Nat.cast_nonneg _) hN₁.le
    have hp1 : (s₁:ℝ)/n₁ ≤ 1 := (div_le_one hN₁).mpr (by exact_mod_cast hs₁)
    obtain ⟨hLL, hUU⟩ := wilson_nested hp0 hp1 h1 h12
    obtain ⟨l1a, l1b, l1c, l1d⟩ := wilson_unclamped_bounds hp0 hp1 h1
    obtain ⟨l2a, l2b, l2c, l2d⟩ := wilson_unclamped_bounds hp0 hp1 h2
    unfold wilson_ci
    rw [if_neg h1.ne', if_neg h2.ne', ← hpeq,
      max_eq_right l1a, max_eq_right l2a, min_eq_right l1d, min_eq_right l2d]
    linarith

/-- Witness for C6: halving score 1/2 at sample sizes 2 and 4. -/
theorem c6_witness :
    (1 ≤ 2 ∧ 0 < 2 ∧ 2 ≤ 4 ∧ 1 ≤ 2 ∧ 2 ≤ 4 ∧ 1 * 4 = 2 * 2) ∧
    ((0 ≤ (wilson_ci 1 2).1 ∧ (wilson_ci 1 2).1 ≤ 1 ∧
      0 ≤ (wilson_ci 1 2).2 ∧ (wilson_ci 1 2).2 ≤ 1) ∧
     (wilson_ci 2 4).2 - (wilson_ci 2 4).1
       ≤ (wilson_ci 1 2).2 - (wilson_ci 1 2).1) :=
  ⟨by decide,
    c6_wilson_bounds_width 1 2 1 2 2 4 (by decide) (by decide) (by decide)
      (by decide) (by decide) (by decide)⟩
